import Mathlib

set_option autoImplicit false

/-!
Shallow embedding of the osfstorage addon models
(`addons/osfstorage/models.py`): the file-node tree with versioning,
checkout locking, tag management, guid collection and the NodeSettings
lifecycle.  Machine-level identifiers (users, tags, guids, locations)
are represented by `Nat`; strings that matter for path computation are
represented as `List Char`.
-/

/-- A stored file version (`osf.models.FileVersion` as used by
`OsfStorageFile.create_version`): sequence identifier, creator,
storage-location descriptor and a metadata mapping. -/
structure FileVersion where
  identifier : Nat
  creator : Nat
  location : Nat
  metadata : List (Nat × Nat)
  deriving DecidableEq, Repr

/-- Modelled from the spec: `FileVersion.is_duplicate` is defined outside the
given sources (`osf/models`); the spec states that two versions are duplicates
exactly when their storage-location descriptors match. -/
def FileVersion.is_duplicate (v w : FileVersion) : Bool :=
  v.location == w.location

/-- The state of an `OsfStorageFile` relevant to versioning: its ordered
version sequence and a persistence counter recording calls to `save`. -/
structure OsfStorageFile where
  versions : List FileVersion
  saves : Nat
  deriving DecidableEq, Repr

/-- A version selector as passed to `get_version`: absent (`None`), an
integer (any value accepted by Python `int(...)`), or a value on which
`int(...)` raises `ValueError`. -/
inductive VersionSelector where
  | noSel
  | intSel (n : Int)
  | badSel
  deriving DecidableEq, Repr

/-- Result of `get_version`: a value (possibly `None`), or the raised
`VersionNotFoundError`. -/
inductive VersionLookup where
  | ok (v : Option FileVersion)
  | notFound
  deriving DecidableEq, Repr

/-- Python list indexing `l[i]` for an `Int` index: non-negative indices
index from the front, negative indices index from the back, and anything
out of range raises `IndexError` (here `none`). -/
def pyGetItem {α : Type} (l : List α) (i : Int) : Option α :=
  if 0 ≤ i then l[i.toNat]?
  else if 0 ≤ i + l.length then l[(i + l.length).toNat]?
  else none

/-- `OsfStorageFile.get_version(version, required)`: no selector returns the
latest version or `None`; an integer selector indexes `self.versions[int(version) - 1]`
with Python semantics; `IndexError`/`ValueError` yield `None`, or
`VersionNotFoundError` when `required` is set. -/
def OsfStorageFile.get_version (f : OsfStorageFile) (version : VersionSelector)
    (required : Bool) : VersionLookup :=
  match version with
  | .noSel => .ok f.versions.getLast?
  | .intSel n =>
      match pyGetItem f.versions (n - 1) with
      | some v => .ok (some v)
      | none => if required then .notFound else .ok none
  | .badSel => if required then .notFound else .ok none

/-- The candidate `FileVersion(identifier=len(self.versions) + 1, creator=creator,
location=location)` built at the top of `create_version`. -/
def OsfStorageFile.proposedVersion (f : OsfStorageFile) (creator loc : Nat) :
    FileVersion :=
  { identifier := f.versions.length + 1, creator := creator, location := loc,
    metadata := [] }

/-- The non-duplicate tail of `create_version`: apply the metadata update when
provided (`_find_matching_archive` is a best-effort side lookup with no
user-visible effect and is modelled as a no-op), persist, and append to the
version sequence. -/
def OsfStorageFile.appendVersion (f : OsfStorageFile) (version : FileVersion)
    (metadata : Option (List (Nat × Nat))) : FileVersion × OsfStorageFile :=
  let version := match metadata with
    | some m => { version with metadata := m }
    | none => version
  (version, { f with versions := f.versions ++ [version], saves := f.saves + 1 })

/-- `OsfStorageFile.create_version(creator, location, metadata)`: fetch the
latest version, build the candidate with identifier `len(versions) + 1`, and
short-circuit to the existing latest version when it is a duplicate of the
candidate; otherwise enrich, persist and append. -/
def OsfStorageFile.create_version (f : OsfStorageFile) (creator loc : Nat)
    (metadata : Option (List (Nat × Nat))) : FileVersion × OsfStorageFile :=
  let version := f.proposedVersion creator loc
  match f.versions.getLast? with
  | some latest_version =>
      if latest_version.is_duplicate version then
        (latest_version, f)
      else
        f.appendVersion version metadata
  | none => f.appendVersion version metadata

lemma create_version_dup_of_latest (f : OsfStorageFile) (creator loc : Nat)
    (metadata : Option (List (Nat × Nat))) (lv : FileVersion)
    (hlast : f.versions.getLast? = some lv) (hloc : lv.location = loc) :
    f.create_version creator loc metadata = (lv, f) := by
  unfold OsfStorageFile.create_version
  simp [hlast, FileVersion.is_duplicate, OsfStorageFile.proposedVersion, hloc]

lemma create_version_latest_location (f : OsfStorageFile) (creator loc : Nat)
    (metadata : Option (List (Nat × Nat))) :
    ∃ lv, (f.create_version creator loc metadata).2.versions.getLast? = some lv
      ∧ lv.location = loc := by
  unfold OsfStorageFile.create_version
  cases h : f.versions.getLast? with
  | none =>
    cases metadata <;>
      simp [OsfStorageFile.appendVersion, OsfStorageFile.proposedVersion,
        List.getLast?_concat]
  | some lv =>
    by_cases hd : lv.is_duplicate (f.proposedVersion creator loc) = true
    · refine ⟨lv, ?_, ?_⟩
      · simp [hd, h]
      · simpa [FileVersion.is_duplicate, OsfStorageFile.proposedVersion] using hd
    · cases metadata with
      | none =>
        refine ⟨f.proposedVersion creator loc, ?_, rfl⟩
        simp [hd, OsfStorageFile.appendVersion, List.getLast?_concat]
      | some m =>
        refine ⟨{ f.proposedVersion creator loc with metadata := m }, ?_, rfl⟩
        simp [hd, OsfStorageFile.appendVersion, List.getLast?_concat]

/-- C1: `create_version` is idempotent by content: the candidate version's
sequence identifier is `len(versions) + 1`; when the existing latest version
duplicates the candidate (location-descriptor equality), that latest version
is returned with the file state unchanged (no append, no save); hence a
second `create_version` with the same location leaves the state of the first
call untouched. -/
theorem create_version_idempotent (f : OsfStorageFile) (creator loc : Nat)
    (metadata : Option (List (Nat × Nat))) :
    (f.proposedVersion creator loc).identifier = f.versions.length + 1 ∧
    (∀ lv, f.versions.getLast? = some lv →
      lv.is_duplicate (f.proposedVersion creator loc) = true →
      f.create_version creator loc metadata = (lv, f)) ∧
    ((f.create_version creator loc metadata).2.create_version creator loc metadata).2
      = (f.create_version creator loc metadata).2 := by
  refine ⟨rfl, ?_, ?_⟩
  · intro lv hlast hdup
    unfold OsfStorageFile.create_version
    simp [hlast, hdup]
  · obtain ⟨lv, hlast, hloc⟩ := create_version_latest_location f creator loc metadata
    rw [create_version_dup_of_latest _ creator loc metadata lv hlast hloc]

/-- C1 witness: on a file whose single version already sits at location `5`,
`create_version` returns that version and leaves the state unchanged. -/
theorem create_version_idempotent_witness :
    OsfStorageFile.create_version ⟨[⟨1, 7, 5, []⟩], 3⟩ 7 5 none
      = (⟨1, 7, 5, []⟩, ⟨[⟨1, 7, 5, []⟩], 3⟩) :=
  (create_version_idempotent ⟨[⟨1, 7, 5, []⟩], 3⟩ 7 5 none).2.1
    ⟨1, 7, 5, []⟩ (by decide) (by decide)

/-- C2 counterexample: on a file with exactly one version, the selector `0`
is outside `[1, count]`, yet `get_version(0)` returns the latest version via
Python negative indexing (`versions[0 - 1] = versions[-1]`) instead of
absence, and with `required` it does not raise `VersionNotFoundError`. -/
theorem get_version_zero_counterexample :
    OsfStorageFile.get_version ⟨[⟨1, 7, 5, []⟩], 0⟩ (.intSel 0) false
        = .ok (some ⟨1, 7, 5, []⟩) ∧
    OsfStorageFile.get_version ⟨[⟨1, 7, 5, []⟩], 0⟩ (.intSel 0) false
        ≠ .ok none ∧
    OsfStorageFile.get_version ⟨[⟨1, 7, 5, []⟩], 0⟩ (.intSel 0) true
        ≠ .notFound := by
  decide

/-- C2 (amended): with no selector `get_version` returns the latest version
(or absence); an integer selector `n ∈ [1, count]` returns the nth version
(1-indexed); `n ∈ [1 - count, 0]` resolves through Python negative indexing
to version `count + n`; `n` outside `[1 - count, count]` and non-numeric
selectors yield absence, or `VersionNotFoundError` when `required` is set. -/
theorem get_version_characterization (f : OsfStorageFile) (n : Int)
    (required : Bool) :
    (f.get_version .noSel required = .ok f.versions.getLast?) ∧
    (1 ≤ n → n ≤ (f.versions.length : Int) →
      f.get_version (.intSel n) required = .ok f.versions[(n - 1).toNat]? ∧
      f.versions[(n - 1).toNat]?.isSome = true) ∧
    (1 - (f.versions.length : Int) ≤ n → n ≤ 0 →
      f.get_version (.intSel n) required
          = .ok f.versions[(n - 1 + f.versions.length).toNat]? ∧
      f.versions[(n - 1 + f.versions.length).toNat]?.isSome = true) ∧
    ((n ≤ -(f.versions.length : Int) ∨ (f.versions.length : Int) < n) →
      f.get_version (.intSel n) required
          = if required then .notFound else .ok none) ∧
    (f.get_version .badSel required = if required then .notFound else .ok none) := by
  refine ⟨rfl, ?_, ?_, ?_, rfl⟩
  · intro h1 h2
    have hidx : (n - 1).toNat < f.versions.length := by omega
    simp only [OsfStorageFile.get_version, pyGetItem]
    rw [if_pos (by omega : (0:Int) ≤ n - 1), List.getElem?_eq_getElem hidx]
    exact ⟨rfl, rfl⟩
  · intro h1 h2
    have hidx : (n - 1 + (f.versions.length : Int)).toNat < f.versions.length := by
      omega
    simp only [OsfStorageFile.get_version, pyGetItem]
    rw [if_neg (by omega : ¬ (0:Int) ≤ n - 1),
      if_pos (by omega : (0:Int) ≤ n - 1 + (f.versions.length : Int)),
      List.getElem?_eq_getElem hidx]
    exact ⟨rfl, rfl⟩
  · intro h
    simp only [OsfStorageFile.get_version, pyGetItem]
    rcases h with h | h
    · rw [if_neg (by omega : ¬ (0:Int) ≤ n - 1),
        if_neg (by omega : ¬ (0:Int) ≤ n - 1 + (f.versions.length : Int))]
    · rw [if_pos (by omega : (0:Int) ≤ n - 1),
        List.getElem?_eq_none (by omega : f.versions.length ≤ (n - 1).toNat)]

/-- C2 amended witness: selector `2` on a two-version file returns the second
version. -/
theorem get_version_characterization_witness :
    OsfStorageFile.get_version ⟨[⟨1, 7, 5, []⟩, ⟨2, 7, 6, []⟩], 0⟩
        (.intSel 2) false = .ok (some ⟨2, 7, 6, []⟩) := by
  have h := (get_version_characterization ⟨[⟨1, 7, 5, []⟩, ⟨2, 7, 6, []⟩], 0⟩
    2 false).2.1 (by decide) (by decide)
  exact h.1.trans (by decide)

/-- A file-node name, as the list of its characters. -/
abbrev FName := List Char

/-- The parent chain of an `OsfStorageFileNode` as needed by
`materialized_path`: a node carries its name, its kind flag (`is_file`),
and either no parent (the root) or a parent node. -/
inductive FNode where
  | root (name : FName) (is_file : Bool)
  | child (name : FName) (is_file : Bool) (parent : FNode)
  deriving DecidableEq, Repr

/-- Name accessor for `FNode`. -/
def FNode.name : FNode → FName
  | .root n _ => n
  | .child n _ _ => n

/-- Kind accessor for `FNode` (`self.is_file`). -/
def FNode.is_file : FNode → Bool
  | .root _ b => b
  | .child _ b _ => b

/-- Parent accessor for `FNode` (`self.parent`, `None` for the root). -/
def FNode.parent : FNode → Option FNode
  | .root _ _ => none
  | .child _ _ p => some p

/-- Names along the `lineage()` generator of `materialized_path`: the node
itself followed by its ancestors up to the root. -/
def FNode.lineageNames : FNode → List FName
  | .root n _ => [n]
  | .child n _ p => n :: p.lineageNames

/-- One step of Python `os.path.join` on posix paths: a component starting
with the separator resets the path; otherwise the separator is inserted
unless the accumulated path is empty or already ends with it. -/
def posixJoinStep (path b : FName) : FName :=
  if b.head? = some '/' then b
  else if path = [] ∨ path.getLast? = some '/' then path ++ b
  else path ++ '/' :: b

/-- Python `os.path.join(a, *p)` over a non-empty component list. -/
def posixJoin : List FName → FName
  | [] => []
  | a :: rest => rest.foldl posixJoinStep a

/-- `OsfStorageFileNode.materialized_path`: `/` when the node has no parent;
otherwise `os.path.join` of the reversed lineage names, prefixed with `/`
and given a trailing `/` for folders. -/
def FNode.materialized_path (nd : FNode) : FName :=
  match nd with
  | .root _ _ => ['/']
  | .child _ _ _ =>
      let path := posixJoin nd.lineageNames.reverse
      if nd.is_file then '/' :: path
      else '/' :: path ++ ['/']

/-- Rendering of the claim's "slash-joined names": the names separated by
single `/` characters. -/
def slashJoined : List FName → FName
  | [] => []
  | [n] => n
  | n :: rest => n ++ '/' :: slashJoined rest

lemma FNode.lineageNames_ne_nil (nd : FNode) : nd.lineageNames ≠ [] := by
  cases nd <;> simp [FNode.lineageNames]

lemma slashJoined_eq_flatten (n0 : FName) (rest : List FName) :
    slashJoined (n0 :: rest) = n0 ++ (rest.map (fun n => '/' :: n)).flatten := by
  induction rest generalizing n0 with
  | nil => simp [slashJoined]
  | cons m ms ih => simp [slashJoined, ih m]

lemma foldl_posixJoinStep (ns : List FName) :
    ∀ acc : FName, acc ≠ [] → acc.getLast? ≠ some '/' →
    (∀ n ∈ ns, n ≠ [] ∧ n.head? ≠ some '/' ∧ n.getLast? ≠ some '/') →
    ns.foldl posixJoinStep acc = acc ++ (ns.map (fun n => '/' :: n)).flatten := by
  induction ns with
  | nil => intro acc _ _ _; simp
  | cons n rest ih =>
    intro acc hne hlast hwf
    obtain ⟨hn1, hn2, hn3⟩ := hwf n (by simp)
    have hstep : posixJoinStep acc n = acc ++ '/' :: n := by
      unfold posixJoinStep
      rw [if_neg hn2, if_neg]
      push_neg
      exact ⟨hne, hlast⟩
    have hlast' : (acc ++ '/' :: n).getLast? = n.getLast? := by
      obtain ⟨m, ms, rfl⟩ := List.exists_cons_of_ne_nil hn1
      rw [List.getLast?_append, List.getLast?_cons_cons]
      cases hgl : (m :: ms).getLast? with
      | none => exact absurd (List.getLast?_eq_none_iff.mp hgl) (by simp)
      | some c => simp
    rw [List.foldl_cons, hstep,
      ih (acc ++ '/' :: n) (by simp) (by rw [hlast']; exact hn3)
        (fun m hm => hwf m (by simp [hm]))]
    simp

lemma posixJoin_empty_cons (ns : List FName) (hne : ns ≠ [])
    (hwf : ∀ n ∈ ns, n ≠ [] ∧ n.head? ≠ some '/' ∧ n.getLast? ≠ some '/') :
    posixJoin ([] :: ns) = slashJoined ns := by
  obtain ⟨n0, rest, rfl⟩ := List.exists_cons_of_ne_nil hne
  obtain ⟨h1, h2, h3⟩ := hwf n0 (by simp)
  have hstep : posixJoinStep [] n0 = n0 := by
    unfold posixJoinStep
    rw [if_neg h2, if_pos (Or.inl rfl), List.nil_append]
  show (n0 :: rest).foldl posixJoinStep [] = _
  rw [List.foldl_cons, hstep,
    foldl_posixJoinStep rest n0 h1 h3 (fun m hm => hwf m (by simp [hm])),
    slashJoined_eq_flatten]

/-- C6: for a node whose root ancestor is named with the empty string and
whose non-root lineage names are nonempty and neither start nor end with the
separator, the materialized path is `/` followed by the slash-joined names of
its ancestors from the root (exclusive) down to the node itself, with a
trailing `/` for folders; a parentless node resolves to exactly `/`. -/
theorem materialized_path_spec (nd : FNode)
    (hroot : nd.lineageNames.getLast? = some ([] : FName))
    (hwf : ∀ n ∈ nd.lineageNames.dropLast,
      n ≠ [] ∧ n.head? ≠ some '/' ∧ n.getLast? ≠ some '/') :
    (nd.parent = none → nd.materialized_path = ['/']) ∧
    (nd.parent ≠ none →
      nd.materialized_path =
        '/' :: (slashJoined nd.lineageNames.dropLast.reverse ++
          (if nd.is_file then [] else ['/']))) := by
  constructor
  · intro hp
    cases nd with
    | root n b => rfl
    | child n b q => simp [FNode.parent] at hp
  · intro hp
    cases nd with
    | root n b => exact absurd rfl hp
    | child n b q =>
      have hL : (FNode.child n b q).lineageNames = n :: q.lineageNames := rfl
      have hsplit : (FNode.child n b q).lineageNames.dropLast ++ [([] : FName)]
          = (FNode.child n b q).lineageNames :=
        List.dropLast_append_getLast? _ (Option.mem_def.mpr hroot)
      have hrev : (FNode.child n b q).lineageNames.reverse
          = [] :: (FNode.child n b q).lineageNames.dropLast.reverse := by
        conv_lhs => rw [← hsplit]
        simp
      have hdne : (FNode.child n b q).lineageNames.dropLast ≠ [] := by
        obtain ⟨m, ms, hq⟩ := List.exists_cons_of_ne_nil (FNode.lineageNames_ne_nil q)
        rw [hL, hq]
        simp
      have hjoin : posixJoin (FNode.child n b q).lineageNames.reverse
          = slashJoined (FNode.child n b q).lineageNames.dropLast.reverse := by
        rw [hrev]
        exact posixJoin_empty_cons _ (by simpa using hdne)
          (fun m hm => hwf m (List.mem_reverse.mp hm))
      show (let path := posixJoin (FNode.child n b q).lineageNames.reverse;
        if (FNode.child n b q).is_file then '/' :: path else '/' :: path ++ ['/']) = _
      rw [hjoin]
      cases b <;> simp [FNode.is_file]

/-- C6 witness: for the file `b` inside folder `a` under the empty-named
root, the materialized path is `/a/b`. -/
theorem materialized_path_spec_witness :
    (FNode.child ['b'] true
      (FNode.child ['a'] false (FNode.root [] false))).materialized_path
      = ['/', 'a', '/', 'b'] := by
  have h := (materialized_path_spec
      (FNode.child ['b'] true (FNode.child ['a'] false (FNode.root [] false)))
      (by simp [FNode.lineageNames]) (by decide)).2 (by simp [FNode.parent])
  exact h.trans (by decide)

/-- Permission levels of the permission oracle (`website.util.permissions`). -/
inductive Permission where
  | READ
  | WRITE
  | ADMIN
  deriving DecidableEq, Repr

/-- Users are identifiers. -/
abbrev User := Nat

/-- The node-log actions used by `check_in_or_out`
(`NodeLog.CHECKED_OUT` / `NodeLog.CHECKED_IN`). -/
inductive LogAction where
  | checked_out
  | checked_in
  deriving DecidableEq, Repr

/-- State of an `OsfStorageFileNode` relevant to `check_in_or_out`: its
`checkout` field, the number of log entries on the owning node, and whether
`self.save()` has been called. -/
structure CheckableNode where
  checkout : Option User
  node_logs : Nat
  saved : Bool
  deriving DecidableEq, Repr

/-- `OsfStorageFileNode.is_checked_out` (file variant): the checkout field
is non-null. -/
def CheckableNode.is_checked_out (nd : CheckableNode) : Bool :=
  nd.checkout.isSome

/-- The raised `website.files.exceptions.FileNodeCheckedOutError`. -/
inductive CheckedOutError where
  | fileNodeCheckedOut
  deriving DecidableEq, Repr

/-- `action = NodeLog.CHECKED_OUT if checkout else NodeLog.CHECKED_IN`. -/
def checkAction (checkout : Option User) : LogAction :=
  if checkout.isSome then .checked_out else .checked_in

/-- `OsfStorageFileNode.check_in_or_out(user, checkout, save)`.  Modelled
from the spec: `node.permissions.get(user._id, [])` and
`node.get_permissions(user)` are defined outside the given sources; the
spec's permission oracle `permissionsOf(user, project) -> set<PermissionLevel>`
serves both membership tests, supplied here as `perms`. -/
def check_in_or_out (perms : User → List Permission) (nd : CheckableNode)
    (user : User) (checkout : Option User) (save : Bool) :
    Except CheckedOutError CheckableNode :=
  if (nd.is_checked_out && !(nd.checkout == some user)
        && !(decide (Permission.ADMIN ∈ perms user)))
      || !(decide (Permission.WRITE ∈ perms user)) then
    .error .fileNodeCheckedOut
  else
    if nd.is_checked_out && checkAction checkout == LogAction.checked_in
        || !nd.is_checked_out && checkAction checkout == LogAction.checked_out then
      let nd1 : CheckableNode :=
        { nd with checkout := checkout, node_logs := nd.node_logs + 1 }
      if save then .ok { nd1 with saved := true } else .ok nd1
    else
      .ok nd

lemma check_in_or_out_cond_iff (perms : User → List Permission)
    (nd : CheckableNode) (user : User) :
    (((nd.is_checked_out && !(nd.checkout == some user)
          && !(decide (Permission.ADMIN ∈ perms user)))
        || !(decide (Permission.WRITE ∈ perms user))) = true) ↔
    (Permission.WRITE ∉ perms user ∨
      (nd.checkout ≠ none ∧ nd.checkout ≠ some user ∧
        Permission.ADMIN ∉ perms user)) := by
  simp [CheckableNode.is_checked_out, Option.isSome_iff_ne_none, and_assoc]
  tauto

lemma check_in_or_out_error_cases (perms : User → List Permission)
    (nd : CheckableNode) (user : User) (checkout : Option User) (save : Bool) :
    check_in_or_out perms nd user checkout save = .error .fileNodeCheckedOut ↔
      (Permission.WRITE ∉ perms user ∨
        (nd.checkout ≠ none ∧ nd.checkout ≠ some user ∧
          Permission.ADMIN ∉ perms user)) := by
  unfold check_in_or_out
  by_cases hb : (((nd.is_checked_out && !(nd.checkout == some user)
        && !(decide (Permission.ADMIN ∈ perms user)))
      || !(decide (Permission.WRITE ∈ perms user))) = true)
  · rw [if_pos hb]
    simpa using (check_in_or_out_cond_iff perms nd user).mp hb
  · rw [if_neg hb]
    constructor
    · intro h
      split_ifs at h
    · intro hprop
      exact absurd ((check_in_or_out_cond_iff perms nd user).mpr hprop) hb

/-- C3: `check_in_or_out` raises `FileNodeCheckedOutError` iff the actor
lacks write permission, or the node is checked out by another user and the
actor lacks admin permission; in particular checking out a free node as a
write-permitted actor succeeds, after which a checkout attempt by a
different non-admin write-permitted user fails with the conflict error. -/
theorem check_in_or_out_conflict_iff (perms : User → List Permission)
    (nd : CheckableNode) (user : User) (checkout : Option User) (save : Bool) :
    (check_in_or_out perms nd user checkout save = .error .fileNodeCheckedOut ↔
      Permission.WRITE ∉ perms user ∨
        (nd.checkout ≠ none ∧ nd.checkout ≠ some user ∧
          Permission.ADMIN ∉ perms user)) ∧
    (nd.checkout = none → Permission.WRITE ∈ perms user →
      ∃ nd1, check_in_or_out perms nd user (some user) save = .ok nd1 ∧
        nd1.checkout = some user ∧
        ∀ u2, u2 ≠ user → Permission.WRITE ∈ perms u2 →
          Permission.ADMIN ∉ perms u2 →
          check_in_or_out perms nd1 u2 (some u2) save
            = .error .fileNodeCheckedOut) := by
  refine ⟨check_in_or_out_error_cases perms nd user checkout save, ?_⟩
  intro hfree hw
  have hb : ¬ (((nd.is_checked_out && !(nd.checkout == some user)
        && !(decide (Permission.ADMIN ∈ perms user)))
      || !(decide (Permission.WRITE ∈ perms user))) = true) := by
    rw [check_in_or_out_cond_iff]
    simp [hfree, hw]
  have hrun : ∀ nd1 : CheckableNode,
      (∀ u2, u2 ≠ user → Permission.WRITE ∈ perms u2 →
        Permission.ADMIN ∉ perms u2 → nd1.checkout = some user →
        check_in_or_out perms nd1 u2 (some u2) save
          = .error .fileNodeCheckedOut) := by
    intro nd1 u2 hne hw2 hadm2 hco
    refine (check_in_or_out_error_cases perms nd1 u2 (some u2) save).mpr ?_
    refine Or.inr ⟨by simp [hco], by simp [hco, (Ne.symm hne)], hadm2⟩
  cases save with
  | false =>
    refine ⟨⟨some user, nd.node_logs + 1, nd.saved⟩,
      ?_, rfl, fun u2 h1 h2 h3 => hrun _ u2 h1 h2 h3 rfl⟩
    unfold check_in_or_out
    rw [if_neg hb]
    simp [CheckableNode.is_checked_out, hfree, checkAction]
  | true =>
    refine ⟨⟨some user, nd.node_logs + 1, true⟩,
      ?_, rfl, fun u2 h1 h2 h3 => hrun _ u2 h1 h2 h3 rfl⟩
    unfold check_in_or_out
    rw [if_neg hb]
    simp [CheckableNode.is_checked_out, hfree, checkAction]

/-- Permission table used by the witnesses: users `1` and `2` hold write
permission, nobody holds admin. -/
def demoPerms : User → List Permission :=
  fun u => if u ≤ 2 then [Permission.WRITE] else []

/-- C3 witness: user `1` checks out a free node; user `2` (write, non-admin)
then fails with the conflict error. -/
theorem check_in_or_out_conflict_iff_witness :
    ∃ nd1, check_in_or_out demoPerms ⟨none, 0, false⟩ 1 (some 1) false
        = .ok nd1 ∧
      nd1.checkout = some 1 ∧
      check_in_or_out demoPerms nd1 2 (some 2) false
        = .error .fileNodeCheckedOut := by
  obtain ⟨nd1, h1, h2, h3⟩ :=
    (check_in_or_out_conflict_iff demoPerms ⟨none, 0, false⟩ 1 (some 1)
      false).2 rfl (by decide)
  exact ⟨nd1, h1, h2, h3 2 (by decide) (by decide) (by decide)⟩

lemma check_meaningful_iff (nd : CheckableNode) (checkout : Option User) :
    ((nd.is_checked_out && checkAction checkout == LogAction.checked_in
        || !nd.is_checked_out && checkAction checkout == LogAction.checked_out)
      = true) ↔
    ((checkout = none ∧ nd.checkout ≠ none) ∨
      (checkout ≠ none ∧ nd.checkout = none)) := by
  cases checkout <;>
    simp [checkAction, CheckableNode.is_checked_out, Option.isSome_iff_ne_none]

/-- C4: a permitted `check_in_or_out` call sets the checkout field and adds
exactly one audit-log entry when and only when the transition is meaningful
(checking in while checked out, or checking out while free); otherwise it
returns the node fully unchanged — no mutation, no log entry. -/
theorem check_in_or_out_frame (perms : User → List Permission)
    (nd : CheckableNode) (user : User) (checkout : Option User) (save : Bool)
    (nd1 : CheckableNode)
    (hok : check_in_or_out perms nd user checkout save = .ok nd1) :
    (((checkout = none ∧ nd.checkout ≠ none) ∨
        (checkout ≠ none ∧ nd.checkout = none)) →
      nd1.checkout = checkout ∧ nd1.node_logs = nd.node_logs + 1 ∧
        nd1.saved = (save || nd.saved)) ∧
    (¬ ((checkout = none ∧ nd.checkout ≠ none) ∨
        (checkout ≠ none ∧ nd.checkout = none)) →
      nd1 = nd) := by
  unfold check_in_or_out at hok
  by_cases h1 : (((nd.is_checked_out && !(nd.checkout == some user)
        && !(decide (Permission.ADMIN ∈ perms user)))
      || !(decide (Permission.WRITE ∈ perms user))) = true)
  · rw [if_pos h1] at hok
    exact Except.noConfusion hok
  · rw [if_neg h1] at hok
    by_cases h2 : ((nd.is_checked_out
          && checkAction checkout == LogAction.checked_in
        || !nd.is_checked_out
          && checkAction checkout == LogAction.checked_out) = true)
    · rw [if_pos h2] at hok
      cases save with
      | true =>
        simp only [if_true] at hok
        have hnd1 := Except.ok.inj hok
        refine ⟨fun _ => ?_, fun hnot => absurd
          ((check_meaningful_iff nd checkout).mp h2) hnot⟩
        rw [← hnd1]
        exact ⟨rfl, rfl, rfl⟩
      | false =>
        simp only [Bool.false_eq_true, if_false] at hok
        have hnd1 := Except.ok.inj hok
        refine ⟨fun _ => ?_, fun hnot => absurd
          ((check_meaningful_iff nd checkout).mp h2) hnot⟩
        rw [← hnd1]
        exact ⟨rfl, rfl, rfl⟩
    · rw [if_neg h2] at hok
      have hnd1 := Except.ok.inj hok
      refine ⟨fun hme => absurd ((check_meaningful_iff nd checkout).mpr hme) h2,
        fun _ => hnd1.symm⟩

/-- C4 witness: user `1` checks in the node it holds — the checkout field is
cleared and exactly one log entry is added; `⟨none, 1, false⟩` is the
returned node. -/
theorem check_in_or_out_frame_witness :
    (⟨none, 1, false⟩ : CheckableNode).checkout = none ∧
    (⟨none, 1, false⟩ : CheckableNode).node_logs = 0 + 1 := by
  have h := (check_in_or_out_frame demoPerms ⟨some 1, 0, false⟩ 1 none false
    ⟨none, 1, false⟩ rfl).1 (Or.inl ⟨rfl, by decide⟩)
  exact ⟨h.1, h.2.1⟩

/-- State of the owning project (`self.node`) relevant to `delete`: whether
`node.preprint_file == self`, the `_is_preprint_orphan` flag, and a
persistence counter for `node.save()`. -/
structure OwningNode where
  preprint_file_is_self : Bool
  is_preprint_orphan : Bool
  node_saves : Nat
  deriving DecidableEq, Repr

/-- State of an `OsfStorageFileNode` relevant to `delete` / `move_under`:
its checkout field and its owning project. -/
structure StorageFileNode where
  checkout : Option User
  node : OwningNode
  deriving DecidableEq, Repr

/-- Outcome of `delete` / `move_under`: the raised
`FileNodeCheckedOutError`, or delegation to the superclass operation. -/
inductive NodeOpOutcome where
  | checkedOutError
  | delegatedToSuper
  deriving DecidableEq, Repr

/-- `OsfStorageFileNode.delete(user, parent)`: when the node is its
project's preprint primary file, the project's `_is_preprint_orphan` flag is
set and the project saved; then the checkout guard raises
`FileNodeCheckedOutError` whenever `checkout` is set, else the superclass
delete runs.  The pair returned is the owning project's final state and the
outcome. -/
def StorageFileNode.delete (self : StorageFileNode) (user : Option User) :
    OwningNode × NodeOpOutcome :=
  let node :=
    if self.node.preprint_file_is_self then
      { self.node with
        is_preprint_orphan := true, node_saves := self.node.node_saves + 1 }
    else self.node
  if self.checkout.isSome then (node, .checkedOutError)
  else (node, .delegatedToSuper)

/-- `OsfStorageFileNode.move_under(destination_parent, name)`: raises
`FileNodeCheckedOutError` whenever `checkout` is set, else the superclass
move runs. -/
def StorageFileNode.move_under (self : StorageFileNode) : NodeOpOutcome :=
  if self.checkout.isSome then .checkedOutError
  else .delegatedToSuper

/-- C5 counterexample: a node checked out by user `1` cannot be deleted or
moved even by user `1` — the guard raises `FileNodeCheckedOutError`
whenever `checkout` is set, including for the holder, refuting the claim
that delete/move succeed when the checkout is held by the acting user. -/
theorem delete_by_checkout_holder_counterexample :
    (StorageFileNode.delete ⟨some 1, ⟨false, false, 0⟩⟩ (some 1)).2
        = .checkedOutError ∧
    StorageFileNode.move_under ⟨some 1, ⟨false, false, 0⟩⟩
        = .checkedOutError := by
  decide

/-- C5 (amended): `delete` and `move_under` raise the checkout-conflict
error exactly when the checkout field is set — held by anyone, including
the acting user — and succeed exactly when it is absent. -/
theorem delete_move_under_conflict_iff (self : StorageFileNode)
    (user : Option User) :
    ((self.delete user).2 = .checkedOutError ↔ self.checkout ≠ none) ∧
    (self.move_under = .checkedOutError ↔ self.checkout ≠ none) := by
  by_cases h : self.checkout.isSome
  · have hne := Option.isSome_iff_ne_none.mp h
    constructor <;>
      simp [StorageFileNode.delete, StorageFileNode.move_under, h, hne]
  · have heq := Option.not_isSome_iff_eq_none.mp h
    constructor <;>
      simp [StorageFileNode.delete, StorageFileNode.move_under, heq]

/-- C10: deleting a node that is its project's preprint primary file while
checked out sets the project's `_is_preprint_orphan` flag and persists the
project even though `FileNodeCheckedOutError` is raised — the failed delete
is not atomic and leaves the project mutated. -/
theorem delete_preprint_orphan_despite_conflict (self : StorageFileNode)
    (user : Option User)
    (hpre : self.node.preprint_file_is_self = true)
    (hco : self.checkout ≠ none) :
    self.delete user
      = ({ self.node with
          is_preprint_orphan := true, node_saves := self.node.node_saves + 1 },
        .checkedOutError) := by
  have h : self.checkout.isSome := Option.isSome_iff_ne_none.mpr hco
  simp [StorageFileNode.delete, hpre, h]

/-- C10 witness: deleting the preprint primary file checked out by user `2`
raises the conflict while the project's orphan flag is set and saved. -/
theorem delete_preprint_orphan_despite_conflict_witness :
    StorageFileNode.delete ⟨some 2, ⟨true, false, 0⟩⟩ (some 1)
      = (⟨true, true, 1⟩, .checkedOutError) := by
  have h := delete_preprint_orphan_despite_conflict
    ⟨some 2, ⟨true, false, 0⟩⟩ (some 1) rfl (by decide)
  exact h.trans (by decide)

/-- Tags are identifiers of resolved `Tag` entities. -/
abbrev Tag := Nat

/-- State of an `OsfStorageFile` relevant to tag removal: its tag list, the
owning project's registration flag, the owning node's log count and the
file's persistence counter. -/
structure TaggedFile where
  tags : List Tag
  node_is_registration : Bool
  node_logs : Nat
  saves : Nat
  deriving DecidableEq, Repr

/-- Errors raised by `remove_tag`: `NodeStateError`, `InvalidTagError`,
`TagNotFoundError`. -/
inductive TagError where
  | nodeState
  | invalidTag
  | tagNotFound
  deriving DecidableEq, Repr

/-- `OsfStorageFile.remove_tag(tag, auth, save, log)`: editing a
registration raises `NodeStateError`; an unresolvable tag (`Tag.load`
returning nothing) raises `InvalidTagError`; a resolved tag the node lacks
raises `TagNotFoundError`; otherwise the tag is detached, a log entry
optionally added, the file optionally saved, and `True` returned.  `load`
stands for the external tag registry's `Tag.load`. -/
def TaggedFile.remove_tag (f : TaggedFile) (load : Nat → Option Tag)
    (tag : Nat) (save log : Bool) : Except TagError (TaggedFile × Bool) :=
  if f.node_is_registration then .error .nodeState
  else
    match load tag with
    | none => .error .invalidTag
    | some t =>
        if t ∈ f.tags then
          let f1 := { f with tags := f.tags.erase t }
          let f2 := if log then { f1 with node_logs := f1.node_logs + 1 } else f1
          let f3 := if save then { f2 with saves := f2.saves + 1 } else f2
          .ok (f3, true)
        else .error .tagNotFound

/-- C7: `remove_tag` on a registration always raises `NodeStateError`
regardless of the tag; on a non-registration an unresolvable tag raises
`InvalidTagError`, a resolved but absent tag raises `TagNotFoundError`, and
a present tag is detached with `True` returned. -/
theorem remove_tag_spec (f : TaggedFile) (load : Nat → Option Tag)
    (tag : Nat) (save log : Bool) :
    (f.node_is_registration = true →
      f.remove_tag load tag save log = .error .nodeState) ∧
    (f.node_is_registration = false → load tag = none →
      f.remove_tag load tag save log = .error .invalidTag) ∧
    (f.node_is_registration = false → ∀ t, load tag = some t → t ∉ f.tags →
      f.remove_tag load tag save log = .error .tagNotFound) ∧
    (f.node_is_registration = false → ∀ t, load tag = some t → t ∈ f.tags →
      ∃ f3, f.remove_tag load tag save log = .ok (f3, true) ∧
        f3.tags = f.tags.erase t) := by
  refine ⟨?_, ?_, ?_, ?_⟩
  · intro hreg
    simp [TaggedFile.remove_tag, hreg]
  · intro hreg hload
    simp [TaggedFile.remove_tag, hreg, hload]
  · intro hreg t hload hmem
    simp [TaggedFile.remove_tag, hreg, hload, hmem]
  · intro hreg t hload hmem
    cases log with
    | false =>
      cases save with
      | false =>
        exact ⟨{ f with tags := f.tags.erase t },
          by simp [TaggedFile.remove_tag, hreg, hload, hmem], rfl⟩
      | true =>
        exact ⟨{ f with tags := f.tags.erase t, saves := f.saves + 1 },
          by simp [TaggedFile.remove_tag, hreg, hload, hmem], rfl⟩
    | true =>
      cases save with
      | false =>
        exact ⟨{ f with tags := f.tags.erase t, node_logs := f.node_logs + 1 },
          by simp [TaggedFile.remove_tag, hreg, hload, hmem], rfl⟩
      | true =>
        exact ⟨{ f with
            tags := f.tags.erase t, node_logs := f.node_logs + 1,
            saves := f.saves + 1 },
          by simp [TaggedFile.remove_tag, hreg, hload, hmem], rfl⟩

/-- C7 witness: on a registration, removing a tag that is present and
resolvable still raises `NodeStateError`. -/
theorem remove_tag_spec_witness :
    TaggedFile.remove_tag ⟨[4], true, 0, 0⟩ (fun t => some t) 4 true true
      = .error .nodeState :=
  (remove_tag_spec ⟨[4], true, 0, 0⟩ (fun t => some t) 4 true true).1 rfl

/-- Persistence and creation events recorded by the `NodeSettings`
lifecycle: a `self.save()` call, or the creation-and-save of the root
folder (`OsfStorageFolder(name=..., node=...).save()`). -/
inductive NSEvent where
  | save_settings
  | create_root (name : FName) (owner : Nat)
  deriving DecidableEq, Repr

/-- State of a `NodeSettings` instance: the owning project, the attached
`root_node` (the created folder's name and owning project), and the ordered
trace of persistence/creation events. -/
structure NodeSettings where
  owner : Nat
  root_node : Option (FName × Nat)
  events : List NSEvent
  deriving DecidableEq, Repr

/-- `NodeSettings.on_add`: no-op when a root node exists; otherwise save
self (so foreign fields can attach), create and save the root
`OsfStorageFolder(name='', node=self.owner)`, attach it, and save self
again. -/
def NodeSettings.on_add (s : NodeSettings) : NodeSettings :=
  match s.root_node with
  | some _ => s
  | none =>
      let s1 := { s with events := s.events ++ [NSEvent.save_settings] }
      let root : FName × Nat := ([], s1.owner)
      let s2 := { s1 with
        events := s1.events ++ [NSEvent.create_root root.1 root.2] }
      { s2 with
        root_node := some root, events := s2.events ++ [NSEvent.save_settings] }

/-- Number of root folders ever created by a settings instance. -/
def NodeSettings.rootsCreated (s : NodeSettings) : Nat :=
  s.events.countP (fun e => match e with
    | NSEvent.create_root _ _ => true
    | _ => false)

lemma on_add_root_ne_none (s : NodeSettings) : s.on_add.root_node ≠ none := by
  cases h : s.root_node with
  | some r => simp [NodeSettings.on_add, h]
  | none => simp [NodeSettings.on_add, h]

lemma on_add_of_root_ne_none (s : NodeSettings) (h : s.root_node ≠ none) :
    s.on_add = s := by
  cases hr : s.root_node with
  | some r => simp [NodeSettings.on_add, hr]
  | none => exact absurd hr h

lemma on_add_fixed (s : NodeSettings) : s.on_add.on_add = s.on_add :=
  on_add_of_root_ne_none _ (on_add_root_ne_none s)

/-- C9: `on_add` is idempotent: with a root already attached it performs no
mutation; with no root it persists self, creates exactly one empty-named
root folder owned by the same project, attaches it and persists again; any
number of further `on_add` calls performs nothing more, so exactly one
empty-named root folder ever exists per settings instance. -/
theorem on_add_idempotent (s : NodeSettings) :
    (s.root_node ≠ none → s.on_add = s) ∧
    (s.root_node = none →
      s.on_add.root_node = some ([], s.owner) ∧
      s.on_add.events
        = s.events ++ [NSEvent.save_settings, NSEvent.create_root [] s.owner,
            NSEvent.save_settings] ∧
      s.on_add.rootsCreated = s.rootsCreated + 1) ∧
    (∀ k, NodeSettings.on_add^[k + 1] s = s.on_add) := by
  refine ⟨on_add_of_root_ne_none s, ?_, ?_⟩
  · intro h
    refine ⟨by simp [NodeSettings.on_add, h], ?_, ?_⟩
    · simp [NodeSettings.on_add, h]
    · simp [NodeSettings.on_add, NodeSettings.rootsCreated, h,
        List.countP_append]
  · intro k
    induction k with
    | zero => simp
    | succ k ih =>
      rw [Function.iterate_succ_apply', ih, on_add_fixed]

/-- C9 witness: a first `on_add` on a rootless settings instance attaches
the empty-named root owned by project `9` and creates exactly one root. -/
theorem on_add_idempotent_witness :
    (NodeSettings.on_add ⟨9, none, []⟩).root_node = some ([], 9) ∧
    (NodeSettings.on_add ⟨9, none, []⟩).rootsCreated = 0 + 1 := by
  have h := (on_add_idempotent ⟨9, none, []⟩).2.1 rfl
  exact ⟨h.1, h.2.2.trans (by decide)⟩

/-- A live node of the osfstorage tree as seen by `get_file_guids`: its
`is_file` kind and its children (by stored path identifier). -/
structure StoreNode where
  is_file : Bool
  children : List Nat
  deriving DecidableEq, Repr

/-- A `TrashedFileNode` record: only its `is_file` kind matters here;
children of trashed folders come from the parent-linkage lookup. -/
structure TrashedRecord where
  is_file : Bool
  deriving DecidableEq, Repr

/-- The external stores consulted by `get_file_guids`: `cls.load`,
`TrashedFileNode.load`, the parent-linkage lookup
`TrashedFileNode.find(Q('parent', 'eq', id))`, and the guid registry
`Guid.find(Q('referent', 'eq', obj))`. -/
structure FileStore where
  live : Nat → Option StoreNode
  trashed : Nat → Option TrashedRecord
  trashed_children : Nat → List Nat
  guids : Nat → List Nat

/-- Guid extraction for a file object: the first guid referring to it, or
nothing (the `IndexError` is handled and yields no entry). -/
def guidEntry (store : FileStore) (path : Nat) : List Nat :=
  match (store.guids path).head? with
  | some g => [g]
  | none => []

mutual

/-- `OsfStorageFileNode.get_file_guids(materialized_path, provider, node)`:
resolve the path against the live tree, falling back to the trashed store;
files contribute their guid, folders recurse into children.  `none` models
an uncaught Python exception: on a path resolving to neither store the code
dereferences the null lookup (`file_obj.is_file` on `None` raises
`AttributeError`); `fuel` bounds the recursion depth. -/
def get_file_guids (store : FileStore) (fuel : Nat) (path : Nat) :
    Option (List Nat) :=
  match fuel with
  | 0 => none
  | fuel1 + 1 =>
      match store.live path with
      | some obj =>
          if obj.is_file then some (guidEntry store path)
          else get_file_guids_children store fuel1 obj.children
      | none =>
          match store.trashed path with
          | some tobj =>
              if tobj.is_file then some (guidEntry store path)
              else get_file_guids_children store fuel1
                (store.trashed_children path)
          | none => none
termination_by (fuel, 0)

/-- The `for item in children: guids.extend(cls.get_file_guids(...))` loop
of `get_file_guids`. -/
def get_file_guids_children (store : FileStore) (fuel : Nat)
    (paths : List Nat) : Option (List Nat) :=
  match paths with
  | [] => some []
  | c :: rest => do
      let g ← get_file_guids store fuel c
      let r ← get_file_guids_children store fuel rest
      pure (g ++ r)
termination_by (fuel, paths.length + 1)

end

/-- The empty store: no live nodes, no trashed records. -/
def emptyStore : FileStore :=
  { live := fun _ => none, trashed := fun _ => none,
    trashed_children := fun _ => [], guids := fun _ => [] }

/-- C8: on a materialized path that resolves to neither a live node nor a
trashed record, `get_file_guids` does not return the empty list: the code
dereferences the null lookup result (`file_obj.is_file` on `None`),
modelled as the exceptional outcome `none`. -/
theorem get_file_guids_missing_path (store : FileStore) (fuel path : Nat)
    (hlive : store.live path = none) (htrash : store.trashed path = none)
    (hfuel : 0 < fuel) :
    get_file_guids store fuel path = none ∧
    get_file_guids store fuel path ≠ some [] := by
  cases fuel with
  | zero => exact absurd hfuel (lt_irrefl 0)
  | succ fuel1 =>
    have h : get_file_guids store (fuel1 + 1) path = none := by
      rw [get_file_guids, hlive, htrash]
    exact ⟨h, by rw [h]; simp⟩

/-- C8 witness: on the empty store the collection operation yields the
exceptional outcome, not the empty list. -/
theorem get_file_guids_missing_path_witness :
    get_file_guids emptyStore 5 0 = none ∧
    get_file_guids emptyStore 5 0 ≠ some [] :=
  get_file_guids_missing_path emptyStore 5 0 rfl rfl (by decide)

/-- C5 amended witness: with no checkout held, both delete and move proceed
to the superclass operation instead of raising the conflict. -/
theorem delete_move_under_conflict_iff_witness :
    (StorageFileNode.delete ⟨none, ⟨false, false, 0⟩⟩ (some 1)).2
        ≠ .checkedOutError ∧
    StorageFileNode.move_under ⟨none, ⟨false, false, 0⟩⟩
        ≠ .checkedOutError := by
  have h := delete_move_under_conflict_iff ⟨none, ⟨false, false, 0⟩⟩ (some 1)
  exact ⟨fun hc => (h.1.mp hc) rfl, fun hc => (h.2.mp hc) rfl⟩
